import Mathlib

/-!
Verification development for the strategy plugin base of the trader
repository (src/trader/strategy/__init__.py, class BaseModule).

The embedding models:
  - the metadata registry (_register_param),
  - the cron scheduler (_get_next, _call_next and the timer-arming loop
    of install),
  - the pub/sub dispatcher (_msg_reader),
  - the install/uninstall lifecycle (install, uninstall).

Timestamps (wall-clock seconds from time.time, event-loop seconds from
loop.time, and croniter ticks) are modelled as integers at second
granularity.  Handlers are identified by their method name, mirroring
getattr(self, fun_name).  The external croniter library is modelled as a
stored cron expression plus a current base timestamp, with the tick
semantics of an expression given as an explicit parameter
(sem : String -> Time -> Time); the asyncio event loop is modelled as a
growing list of single-shot timers with a cancelled flag, call_at
returning the index of the freshly appended timer; the aioredis pub/sub
client is modelled per the spec's transport interface: pattern-subscribe
records the requested patterns and returns one subscription handle
(named by its pattern) per requested pattern, and operations on a closed
connection fail.  Exceptions caught by the try/except blocks of install
and uninstall are modelled by returning the partially mutated state
together with an Option String error that the caller discards
(the log-and-swallow behaviour of the source).
-/

namespace TraderStrategy

/-- Timestamps in seconds (wall clock, event loop and cron ticks). -/
abbrev Time := ℤ

/-- Handlers are identified by the method name used with getattr. -/
abbrev HandlerId := String

/-- Association-list read, modelling a Python dict lookup (first binding
for the key wins; upsert below keeps at most one binding per key). -/
def alookup {α : Type} : List (String × α) → String → Option α
  | [], _ => none
  | (k1, v) :: l, k => if k1 = k then some v else alookup l k

/-- Association-list write, modelling Python dict assignment: replace the
existing binding in place, or append a new one. -/
def upsert {α : Type} : List (String × α) → String → α → List (String × α)
  | [], k, v => [(k, v)]
  | (k1, v1) :: l, k, v => if k1 = k then (k, v) :: l else (k1, v1) :: upsert l k v

/-- Model of a croniter object: the cron expression it was built from and
the current base timestamp of the iterator (croniter(expr, now) seeds the
base at the registration instant).  The tick function of the external
library is passed separately as a parameter where get_next is called. -/
structure Croniter where
  expr : String
  cur : Time
deriving DecidableEq, Repr

/-- croniter.get_next: produce the next tick strictly after the current
base and advance the iterator to it. -/
def Croniter.get_next (sem : String → Time → Time) (c : Croniter) : Time × Croniter :=
  (sem c.expr c.cur, ⟨c.expr, sem c.expr c.cur⟩)

/-- The n-th iterated tick of a croniter (tick 0 is the seed base). -/
def Croniter.tick (sem : String → Time → Time) (c : Croniter) : Nat → Time
  | 0 => c.cur
  | n + 1 => sem c.expr (Croniter.tick sem c n)

/-- Modelled from the spec: the tick function of the external croniter
library for the expression consisting of five stars — the next minute
boundary strictly after t (croniter's get_next excludes the base time). -/
def nextMinute (t : Time) : Time := 60 * (t.fdiv 60 + 1)

/-- Semantics parameter in which the five-star expression ticks at minute
boundaries (the behaviour of the external croniter library). -/
def minutelySem : String → Time → Time := fun _ t => nextMinute t

/-- A single-shot timer installed on the event loop; key records which
cron key the call_at callback (_call_next, key) rearms. -/
structure Timer where
  key : String
  fireAt : Time
  cancelled : Bool
deriving DecidableEq, Repr

/-- The asyncio event loop, reduced to its installed timers. -/
structure EventLoop where
  timers : List Timer
deriving DecidableEq, Repr

/-- Mark the timer at an index cancelled (TimerHandle.cancel); out of
range indices are a no-op. -/
def cancelTimer : List Timer → Nat → List Timer
  | [], _ => []
  | tm :: l, 0 => ⟨tm.key, tm.fireAt, true⟩ :: l
  | tm :: l, n + 1 => tm :: cancelTimer l n

/-- TimerHandle.cancel through the loop model. -/
def EventLoop.cancel (lp : EventLoop) (i : Nat) : EventLoop := ⟨cancelTimer lp.timers i⟩

/-- asyncio call_at: install a single-shot timer and return its handle. -/
def EventLoop.call_at (lp : EventLoop) (key : String) (t : Time) : Nat × EventLoop :=
  (lp.timers.length, ⟨lp.timers ++ [⟨key, t, false⟩]⟩)

/-- Number of live (non-cancelled) timers on the loop. -/
def liveCount (lp : EventLoop) : Nat :=
  lp.timers.countP (fun tm => decide (tm.cancelled = false))

/-- Number of live timers armed for a given cron key. -/
def liveCountFor (lp : EventLoop) (key : String) : Nat :=
  lp.timers.countP (fun tm => decide (tm.key = key ∧ tm.cancelled = false))

/-- Modelled from the spec: the pub/sub transport interface (external
aioredis client).  Pattern subscribe returns one handle per requested
pattern and records the pattern as active; unsubscribe removes patterns;
any operation on a closed connection raises. -/
structure RedisClient where
  patterns : List String
  closed : Bool
deriving DecidableEq, Repr

/-- psubscribe: returns the list of subscription objects (identified by
their pattern names) paired with the updated client. -/
def psubscribe (c : RedisClient) (pats : List String) :
    Except String (List String × RedisClient) :=
  if c.closed then .error "connection closed"
  else .ok (pats, ⟨c.patterns ++ pats.filter (fun p => decide (p ∉ c.patterns)), false⟩)

/-- punsubscribe: removes the given patterns from the active set. -/
def punsubscribe (c : RedisClient) (pats : List String) : Except String RedisClient :=
  if c.closed then .error "connection closed"
  else .ok ⟨c.patterns.filter (fun p => decide (p ∉ pats)), false⟩

/-- Routing metadata attached to one handler method: at most one of a
crontab expression or a channel name (the module_arg_dict values). -/
structure HandlerArgs where
  crontab : Option String
  channel : Option String
deriving DecidableEq, Repr

/-- One value of crontab_router: the bound handler, the croniter seeded
at registration, and the pending timer handle. -/
structure CronEntry where
  func : HandlerId
  iter : Croniter
  handle : Option Nat
deriving DecidableEq, Repr

/-- The mutable attributes of a BaseModule instance that the routing and
scheduling engine touches. -/
structure ModuleState where
  initialized : Bool
  sub_tasks : List String
  sub_channels : List String
  channel_router : List (String × HandlerId)
  crontab_router : List (String × CronEntry)
  datetime : Option Time
  time : Option Time
  loop_time : Option Time
  loop : EventLoop
  sub_client : RedisClient
  cron_tasks : List HandlerId
  module_arg_dict : List (String × HandlerArgs)
deriving DecidableEq, Repr

/-- The state right after BaseModule.__init__ for a module whose handler
metadata is argDict (fresh open client, empty routers, clock snapshots
still None). -/
def initState (argDict : List (String × HandlerArgs)) : ModuleState :=
  { initialized := false, sub_tasks := [], sub_channels := [], channel_router := [],
    crontab_router := [], datetime := none, time := none, loop_time := none,
    loop := ⟨[]⟩, sub_client := ⟨[], false⟩, cron_tasks := [], module_arg_dict := argDict }

/-- One iteration of the registration loop body of _register_param: a
crontab key builds a CronEntry (handle reset to None, croniter seeded at
the registration datetime), otherwise a channel key binds the handler in
channel_router, otherwise the method is ignored. -/
def regStep (wallDT : Time) (s : ModuleState) (p : String × HandlerArgs) : ModuleState :=
  match p.2.crontab with
  | some expr =>
      { s with crontab_router :=
          upsert s.crontab_router expr ⟨p.1, ⟨expr, wallDT⟩, none⟩ }
  | none =>
      match p.2.channel with
      | some ch => { s with channel_router := upsert s.channel_router ch p.1 }
      | none => s

/-- Metadata registry discovery: snapshot the wall-clock datetime, the
wall-clock float time and the event-loop time, then walk
module_arg_dict. -/
def _register_param (wallDT wallT loopT : Time) (s : ModuleState) : ModuleState :=
  let s1 := { s with datetime := some wallDT, time := some wallT, loop_time := some loopT }
  s1.module_arg_dict.foldl (regStep wallDT) s1

/-- nextFireTime: self.loop_time + (iter.get_next() - self.time),
advancing the iterator stored in crontab_router; None when the key is
unregistered or the clock snapshots are unset (a KeyError or TypeError
in the source). -/
def _get_next (sem : String → Time → Time) (s : ModuleState) (key : String) :
    Option (Time × ModuleState) :=
  match s.loop_time, s.time, alookup s.crontab_router key with
  | some lt, some wt, some e =>
      some (lt + (sem e.iter.expr e.iter.cur - wt),
        { s with crontab_router :=
            (upsert s.crontab_router key
              ⟨e.func, ⟨e.iter.expr, sem e.iter.expr e.iter.cur⟩, e.handle⟩) })
  | _, _, _ => none

/-- The arming line self.crontab_router[key]["handle"] =
self.io_loop.call_at(self._get_next(key), self._call_next, key): compute
nextFireTime (mutating the iterator), install a single-shot timer for it
and store the returned handle. -/
def armAt (sem : String → Time → Time) (s1 : ModuleState) (key : String) : ModuleState :=
  match _get_next sem s1 key with
  | none => s1
  | some (t, s2) =>
    match alookup s2.crontab_router key with
    | none => s2
    | some e2 =>
      let pr := s2.loop.call_at key t
      { s2 with
        loop := pr.2,
        crontab_router := upsert s2.crontab_router key ⟨e2.func, e2.iter, some pr.1⟩ }

/-- The cancel-and-rearm lines shared by _call_next and the arming loop
of install: cancel the pending handle if there is one, then install a
new single-shot timer at nextFireTime and record its handle.  (On an
unregistered key or unset clocks the source would raise instead; those
branches are unreachable from install and unused by the claims.) -/
def armKey (sem : String → Time → Time) (s : ModuleState) (key : String) : ModuleState :=
  match alookup s.crontab_router key with
  | none => s
  | some e =>
    match e.handle with
    | some h => armAt sem { s with loop := s.loop.cancel h } key
    | none => armAt sem s key

/-- The timer callback _call_next: rearm first (cancel any prior handle,
install the next timer), then fire the bound handler as an independent
task (recorded in cron_tasks). -/
def _call_next (sem : String → Time → Time) (s : ModuleState) (key : String) : ModuleState :=
  let s1 := armKey sem s key
  match alookup s1.crontab_router key with
  | some e => { s1 with cron_tasks := s1.cron_tasks ++ [e.func] }
  | none => s1

/-- The arming loop of install folded over the cron keys in table order. -/
def armKeys (sem : String → Time → Time) (ks : List String) (s : ModuleState) : ModuleState :=
  ks.foldl (armKey sem) s

/-- for key, cron_dict in self.crontab_router.items(): cancel any
pre-existing handle, then arm the first timer. -/
def armAll (sem : String → Time → Time) (s : ModuleState) : ModuleState :=
  armKeys sem (s.crontab_router.map Prod.fst) s

/-- install's intermediate state right after the bulk psubscribe: the
updated client, the subscription list assigned to sub_channels, and one
reader task appended to sub_tasks per returned subscription. -/
def subWired (s1 : ModuleState) (pr : List String × RedisClient) : ModuleState :=
  { s1 with
    sub_client := pr.2, sub_channels := pr.1,
    sub_tasks := s1.sub_tasks ++ pr.1 }

/-- The body of install's try block, returning the mutated state and the
error swallowed by the except clause, if any.  Failure points are the
psubscribe call (closed connection) and the abstract start() hook, whose
outcome is the startOk parameter. -/
def installAux (sem : String → Time → Time) (wallDT wallT loopT : Time)
    (startOk : Bool) (s : ModuleState) : ModuleState × Option String :=
  let s1 := _register_param wallDT wallT loopT s
  match psubscribe s1.sub_client (s1.channel_router.map Prod.fst) with
  | .error err => (s1, some err)
  | .ok pr =>
    let s3 := armAll sem (subWired s1 pr)
    match startOk with
    | true => ({ s3 with initialized := true }, none)
    | false => (s3, some "start raised")

/-- install: the try/except swallows the error and keeps the partially
mutated state. -/
def install (sem : String → Time → Time) (wallDT wallT loopT : Time)
    (startOk : Bool) (s : ModuleState) : ModuleState :=
  (installAux sem wallDT wallT loopT startOk s).1

/-- One iteration of uninstall's cancellation loop: if the key holds a
live handle, cancel it and clear the handle. -/
def clearKey (s : ModuleState) (key : String) : ModuleState :=
  match alookup s.crontab_router key with
  | none => s
  | some e =>
    match e.handle with
    | none => s
    | some h =>
      { s with
        loop := s.loop.cancel h,
        crontab_router := upsert s.crontab_router key ⟨e.func, e.iter, none⟩ }

/-- uninstall's cancellation loop folded over a key list. -/
def clearKeys (ks : List String) (s : ModuleState) : ModuleState :=
  ks.foldl clearKey s

/-- for key, cron_dict in self.crontab_router.items(): cancel and clear
every pending handle. -/
def clearAll (s : ModuleState) : ModuleState :=
  clearKeys (s.crontab_router.map Prod.fst) s

/-- uninstall's teardown after a successful punsubscribe, in source
order: the reader-task list is cleared, the client (now holding the
remaining patterns) is closed, and every pending cron handle is
cancelled and set to None. -/
def tornDown (s : ModuleState) (client : RedisClient) : ModuleState :=
  clearAll { s with sub_client := ⟨client.patterns, true⟩, sub_tasks := [] }

/-- The body of uninstall's try block: stop() hook (outcome stopOk),
punsubscribe all channel keys, clear the reader-task bookkeeping, close
the client, cancel and clear every pending cron handle, reset
initialized.  On an exception the state mutated so far is kept and the
error is swallowed by the except clause. -/
def uninstallAux (stopOk : Bool) (s : ModuleState) : ModuleState × Option String :=
  match stopOk with
  | false => (s, some "stop raised")
  | true =>
    match punsubscribe s.sub_client (s.channel_router.map Prod.fst) with
    | .error err => (s, some err)
    | .ok client =>
      ({ tornDown s client with initialized := false }, none)

/-- uninstall: the try/except swallows the error and keeps the partially
mutated state. -/
def uninstall (stopOk : Bool) (s : ModuleState) : ModuleState :=
  (uninstallAux stopOk s).1

/-- A message delivered on a subscription: the concrete originating
channel and the decoded payload (ch.get_json()). -/
structure Msg where
  real_channel : String
  payload : String
deriving DecidableEq, Repr

/-- A recorded handler invocation: which handler was spawned and with
which (channel, payload) arguments. -/
structure Invocation where
  handler : HandlerId
  channel : String
  payload : String
deriving DecidableEq, Repr

/-- Outcome of a _msg_reader run over a finite message stream: either the
subscription signalled no more messages (finished), or an uncaught
exception killed the loop with the remaining messages unread. -/
inductive ReaderOutcome where
  | finished (invs : List Invocation)
  | crashed (invs : List Invocation) (unread : List Msg)
deriving DecidableEq, Repr

/-- The _msg_reader loop for the subscription whose Channel object is
named chName: read a message, look the handler up by ch.name (the
subscribed pattern string), and spawn it with the concrete originating
channel and the decoded payload; a missing key raises an uncaught
KeyError after the message was already consumed. -/
def _msg_reader (router : List (String × HandlerId)) (chName : String) :
    List Msg → ReaderOutcome
  | [] => .finished []
  | m :: ms =>
    match alookup router chName with
    | none => .crashed [] ms
    | some h =>
      match _msg_reader router chName ms with
      | .finished invs => .finished (⟨h, m.real_channel, m.payload⟩ :: invs)
      | .crashed invs unread => .crashed (⟨h, m.real_channel, m.payload⟩ :: invs) unread

/-- The n-th successive nextFireTime value for a key (0-indexed),
threading the iterator state mutation from call to call. -/
def getNextIter (sem : String → Time → Time) (s : ModuleState) (key : String) :
    Nat → Option (Time × ModuleState)
  | 0 => _get_next sem s key
  | n + 1 =>
    match _get_next sem s key with
    | none => none
    | some pr => getNextIter sem pr.2 key n

/-- The pending timer handle currently recorded for a cron key. -/
def handleOf (s : ModuleState) (key : String) : Option Nat :=
  match alookup s.crontab_router key with
  | some e => e.handle
  | none => none

/-- The per-key timer invariant: every live timer armed for the key is
the one the key's pending handle refers to. -/
def GoodKey (s : ModuleState) (key : String) : Prop :=
  ∀ i tm, s.loop.timers.get? i = some tm → tm.key = key → tm.cancelled = false →
    handleOf s key = some i

/-- The module used for the double-install scenario: one crontab handler
(key "e") and one channel handler (channel "ch"). -/
def c8ArgDict : List (String × HandlerArgs) :=
  [("cronf", ⟨some "e", none⟩), ("chanf", ⟨none, some "ch"⟩)]

/-- A concrete cron tick semantics for the scenario. -/
def c8Sem : String → Time → Time := fun _ t => t + 60

/-- A module declaring a single every-minute cron handler. -/
def c5ArgDict : List (String × HandlerArgs) :=
  [("f", ⟨some "* * * * *", none⟩)]

/-- The binding a single argDict item contributes to the channel table:
a channel key counts only when the item has no crontab key, mirroring
the if/elif of _register_param. -/
def chanBind (p : String × HandlerArgs) (ch : String) : Option HandlerId :=
  match p.2.crontab with
  | some _ => none
  | none =>
    match p.2.channel with
    | some c => if c = ch then some p.1 else none
    | none => none

/-- The binding a single argDict item contributes to the cron table. -/
def cronBind (p : String × HandlerArgs) (k : String) : Option HandlerId :=
  match p.2.crontab with
  | some ex => if ex = k then some p.1 else none
  | none => none

/-- The last binding for a key contributed by a list of argDict items
(later items override earlier ones, like repeated dict assignment). -/
def lastOf (f : (String × HandlerArgs) → String → Option HandlerId) :
    List (String × HandlerArgs) → String → Option HandlerId
  | [], _ => none
  | p :: l, k =>
    match lastOf f l k with
    | some v => some v
    | none => f p k

/-! Basic lemmas about the dict model. -/

theorem alookup_upsert_self {α : Type} (l : List (String × α)) (k : String) (v : α) :
    alookup (upsert l k v) k = some v := by
  induction l with
  | nil => simp [upsert, alookup]
  | cons p l ih =>
    obtain ⟨k1, v1⟩ := p
    by_cases h : k1 = k
    · subst h
      simp [upsert, alookup]
    · simp [upsert, alookup, h, ih]

theorem alookup_upsert_ne {α : Type} (l : List (String × α)) (k k2 : String) (v : α)
    (h : k2 ≠ k) : alookup (upsert l k v) k2 = alookup l k2 := by
  have hkk : ¬ (k = k2) := fun hh => h hh.symm
  induction l with
  | nil => simp [upsert, alookup, hkk]
  | cons p l ih =>
    obtain ⟨k1, v1⟩ := p
    by_cases h1 : k1 = k
    · subst h1
      simp [upsert, alookup, hkk]
    · simp [upsert, alookup, h1, ih]

theorem upsert_upsert {α : Type} (l : List (String × α)) (k : String) (v w : α) :
    upsert (upsert l k v) k w = upsert l k w := by
  induction l with
  | nil => simp [upsert]
  | cons p l ih =>
    obtain ⟨k1, v1⟩ := p
    by_cases h : k1 = k
    · subst h
      simp [upsert]
    · simp [upsert, h, ih]

theorem alookup_mem {α : Type} (l : List (String × α)) (k : String) (v : α)
    (h : alookup l k = some v) : (k, v) ∈ l := by
  induction l with
  | nil => simp [alookup] at h
  | cons p l ih =>
    obtain ⟨k1, v1⟩ := p
    by_cases h1 : k1 = k
    · subst h1
      simp only [alookup, if_true, eq_self_iff_true] at h
      rw [Option.some.injEq] at h
      subst h
      exact List.mem_cons_self _ _
    · simp only [alookup, if_neg h1] at h
      exact List.mem_cons_of_mem _ (ih h)

theorem alookup_eq_none {α : Type} (l : List (String × α)) (k : String)
    (h : k ∉ l.map Prod.fst) : alookup l k = none := by
  induction l with
  | nil => rfl
  | cons p l ih =>
    obtain ⟨k1, v1⟩ := p
    simp only [List.map_cons, List.mem_cons] at h
    push_neg at h
    simp only [alookup, if_neg (fun hh : k1 = k => h.1 hh.symm)]
    exact ih h.2

theorem alookup_isSome {α : Type} (l : List (String × α)) (k : String)
    (h : k ∈ l.map Prod.fst) : ∃ v, alookup l k = some v := by
  induction l with
  | nil => simp at h
  | cons p l ih =>
    obtain ⟨k1, v1⟩ := p
    by_cases h1 : k1 = k
    · exact ⟨v1, by simp [alookup, h1]⟩
    · simp only [List.map_cons, List.mem_cons] at h
      rcases h with h | h
      · exact absurd h.symm h1
      · simpa [alookup, if_neg h1] using ih h

theorem map_fst_upsert_mem {α : Type} (l : List (String × α)) (k : String) (v : α)
    (h : k ∈ l.map Prod.fst) : (upsert l k v).map Prod.fst = l.map Prod.fst := by
  induction l with
  | nil => simp at h
  | cons p l ih =>
    obtain ⟨k1, v1⟩ := p
    by_cases h1 : k1 = k
    · subst h1
      simp [upsert]
    · simp only [List.map_cons, List.mem_cons] at h
      rcases h with h | h
      · exact absurd h.symm h1
      · simp [upsert, if_neg h1, ih h]

theorem map_fst_upsert_not_mem {α : Type} (l : List (String × α)) (k : String) (v : α)
    (h : k ∉ l.map Prod.fst) : (upsert l k v).map Prod.fst = l.map Prod.fst ++ [k] := by
  induction l with
  | nil => simp [upsert]
  | cons p l ih =>
    obtain ⟨k1, v1⟩ := p
    simp only [List.map_cons, List.mem_cons] at h
    push_neg at h
    simp [upsert, if_neg (fun hh : k1 = k => h.1 hh.symm), ih h.2]

theorem nodup_map_fst_upsert {α : Type} (l : List (String × α)) (k : String) (v : α)
    (h : (l.map Prod.fst).Nodup) : ((upsert l k v).map Prod.fst).Nodup := by
  by_cases hm : k ∈ l.map Prod.fst
  · rwa [map_fst_upsert_mem l k v hm]
  · rw [map_fst_upsert_not_mem l k v hm]
    refine List.Nodup.append h (List.nodup_singleton k) ?_
    intro a ha hak
    simp only [List.mem_singleton] at hak
    subst hak
    exact hm ha

/-! Field preservation through the registration fold. -/

theorem regStep_proj (w : Time) (s : ModuleState) (p : String × HandlerArgs) :
    (regStep w s p).initialized = s.initialized ∧
    (regStep w s p).sub_client = s.sub_client ∧
    (regStep w s p).loop = s.loop ∧
    (regStep w s p).sub_tasks = s.sub_tasks ∧
    (regStep w s p).sub_channels = s.sub_channels ∧
    (regStep w s p).loop_time = s.loop_time ∧
    (regStep w s p).time = s.time ∧
    (regStep w s p).datetime = s.datetime ∧
    (regStep w s p).module_arg_dict = s.module_arg_dict ∧
    (regStep w s p).cron_tasks = s.cron_tasks := by
  obtain ⟨nm, oc, och⟩ := p
  cases oc <;> cases och <;> simp [regStep]

theorem regFold_proj (w : Time) (l : List (String × HandlerArgs)) (s : ModuleState) :
    ((l.foldl (regStep w) s).initialized = s.initialized) ∧
    ((l.foldl (regStep w) s).sub_client = s.sub_client) ∧
    ((l.foldl (regStep w) s).loop = s.loop) ∧
    ((l.foldl (regStep w) s).sub_tasks = s.sub_tasks) ∧
    ((l.foldl (regStep w) s).sub_channels = s.sub_channels) ∧
    ((l.foldl (regStep w) s).loop_time = s.loop_time) ∧
    ((l.foldl (regStep w) s).time = s.time) ∧
    ((l.foldl (regStep w) s).datetime = s.datetime) ∧
    ((l.foldl (regStep w) s).module_arg_dict = s.module_arg_dict) ∧
    ((l.foldl (regStep w) s).cron_tasks = s.cron_tasks) := by
  induction l generalizing s with
  | nil => simp
  | cons p l ih =>
    obtain ⟨a1, a2, a3, a4, a5, a6, a7, a8, a9, a10⟩ := regStep_proj w s p
    obtain ⟨b1, b2, b3, b4, b5, b6, b7, b8, b9, b10⟩ := ih (regStep w s p)
    simp only [List.foldl_cons]
    exact ⟨b1.trans a1, b2.trans a2, b3.trans a3, b4.trans a4, b5.trans a5,
      b6.trans a6, b7.trans a7, b8.trans a8, b9.trans a9, b10.trans a10⟩

theorem register_loop_time (w t lt : Time) (s : ModuleState) :
    (_register_param w t lt s).loop_time = some lt := by
  unfold _register_param
  exact (regFold_proj w _ _).2.2.2.2.2.1

theorem register_time (w t lt : Time) (s : ModuleState) :
    (_register_param w t lt s).time = some t := by
  unfold _register_param
  exact (regFold_proj w _ _).2.2.2.2.2.2.1

theorem register_initialized (w t lt : Time) (s : ModuleState) :
    (_register_param w t lt s).initialized = s.initialized := by
  unfold _register_param
  exact (regFold_proj w _ _).1

theorem register_sub_client (w t lt : Time) (s : ModuleState) :
    (_register_param w t lt s).sub_client = s.sub_client := by
  unfold _register_param
  exact (regFold_proj w _ _).2.1

theorem register_loop (w t lt : Time) (s : ModuleState) :
    (_register_param w t lt s).loop = s.loop := by
  unfold _register_param
  exact (regFold_proj w _ _).2.2.1

theorem register_sub_tasks (w t lt : Time) (s : ModuleState) :
    (_register_param w t lt s).sub_tasks = s.sub_tasks := by
  unfold _register_param
  exact (regFold_proj w _ _).2.2.2.1

theorem register_module_arg_dict (w t lt : Time) (s : ModuleState) :
    (_register_param w t lt s).module_arg_dict = s.module_arg_dict := by
  unfold _register_param
  exact (regFold_proj w _ _).2.2.2.2.2.2.2.2.1

/-! The cron arithmetic of _get_next. -/

theorem tick_shift (sem : String → Time → Time) (ex : String) (c : Time) (n : Nat) :
    Croniter.tick sem ⟨ex, sem ex c⟩ n = Croniter.tick sem ⟨ex, c⟩ (n + 1) := by
  induction n with
  | zero => rfl
  | succ n ih => simp [Croniter.tick, ih]

theorem getNextIter_spec (sem : String → Time → Time) (s : ModuleState) (key : String)
    (e : CronEntry) (lt wt : Time) (hlt : s.loop_time = some lt) (hwt : s.time = some wt)
    (he : alookup s.crontab_router key = some e) (n : Nat) :
    (getNextIter sem s key n).map Prod.fst
      = some (lt + (Croniter.tick sem e.iter (n + 1) - wt)) := by
  induction n generalizing s e with
  | zero =>
    simp [getNextIter, _get_next, hlt, hwt, he, Croniter.tick]
  | succ n ih =>
    have hget : _get_next sem s key
        = some (lt + (sem e.iter.expr e.iter.cur - wt),
            { s with crontab_router :=
                (upsert s.crontab_router key
                  ⟨e.func, ⟨e.iter.expr, sem e.iter.expr e.iter.cur⟩, e.handle⟩) }) := by
      simp [_get_next, hlt, hwt, he]
    have h2e : alookup
        ({ s with crontab_router :=
            (upsert s.crontab_router key
              ⟨e.func, ⟨e.iter.expr, sem e.iter.expr e.iter.cur⟩, e.handle⟩) } :
          ModuleState).crontab_router key
        = some ⟨e.func, ⟨e.iter.expr, sem e.iter.expr e.iter.cur⟩, e.handle⟩ :=
      alookup_upsert_self _ _ _
    have hrec := ih
      ({ s with crontab_router :=
          (upsert s.crontab_router key
            ⟨e.func, ⟨e.iter.expr, sem e.iter.expr e.iter.cur⟩, e.handle⟩) })
      ⟨e.func, ⟨e.iter.expr, sem e.iter.expr e.iter.cur⟩, e.handle⟩ hlt hwt h2e
    simp only [getNextIter, hget]
    rw [hrec, tick_shift]

/-- C1: for a registered cron key, the n-th successive nextFireTime value
is loopTimeAtRegistration + (n-th cron tick - wallClockAtRegistration):
the two clock snapshots taken by _register_param stay fixed while only
the cron iterator advances, so every subsequent tick is projected
through the offset captured at registration. -/
theorem c1_offsets_fixed (sem : String → Time → Time) (wallDT wallT loopT : Time)
    (s0 : ModuleState) (key : String) (e : CronEntry) (n : Nat)
    (he : alookup (_register_param wallDT wallT loopT s0).crontab_router key = some e) :
    (getNextIter sem (_register_param wallDT wallT loopT s0) key n).map Prod.fst
      = some (loopT + (Croniter.tick sem e.iter (n + 1) - wallT)) :=
  getNextIter_spec sem _ key e loopT wallT
    (register_loop_time wallDT wallT loopT s0) (register_time wallDT wallT loopT s0) he n

/-- C1 witness: registering the c8 module at wall clock 5 (croniter seed
7) and loop time 100 and reading the second fire time. -/
theorem c1_offsets_fixed_witness :
    alookup (_register_param 7 5 100 (initState c8ArgDict)).crontab_router "e"
      = some ⟨"cronf", ⟨"e", 7⟩, none⟩ ∧
    (getNextIter c8Sem (_register_param 7 5 100 (initState c8ArgDict)) "e" 1).map Prod.fst
      = some (100 + (Croniter.tick c8Sem ⟨"e", 7⟩ 2 - 5)) :=
  ⟨by decide,
    c1_offsets_fixed c8Sem 7 5 100 (initState c8ArgDict) "e" ⟨"cronf", ⟨"e", 7⟩, none⟩ 1
      (by decide)⟩

/-! The every-minute schedule. -/

theorem nextMinute_mul (m : ℤ) : nextMinute (60 * m) = 60 * m + 60 := by
  unfold nextMinute
  rw [Int.mul_fdiv_cancel_left _ (by norm_num)]
  ring

theorem lt_nextMinute (t : Time) : t < nextMinute t := by
  have hmod : t.fmod 60 < 60 := Int.fmod_lt_of_pos t (by norm_num)
  have heq : 60 * t.fdiv 60 + t.fmod 60 = t := Int.fdiv_add_fmod t 60
  unfold nextMinute
  calc t = 60 * t.fdiv 60 + t.fmod 60 := heq.symm
    _ < 60 * t.fdiv 60 + 60 := by linarith
    _ = 60 * (t.fdiv 60 + 1) := by ring

theorem nextMinute_multiple (t : Time) : (60 : ℤ) ∣ nextMinute t :=
  ⟨t.fdiv 60 + 1, rfl⟩

theorem minutely_tick (T0 : Time) (n : Nat) :
    Croniter.tick minutelySem ⟨"* * * * *", T0⟩ (n + 1) = nextMinute T0 + 60 * (n : ℤ) := by
  induction n with
  | zero => simp [Croniter.tick, minutelySem]
  | succ n ih =>
    have hstep : Croniter.tick minutelySem ⟨"* * * * *", T0⟩ (n + 1 + 1)
        = minutelySem "* * * * *" (Croniter.tick minutelySem ⟨"* * * * *", T0⟩ (n + 1)) :=
      rfl
    rw [hstep, ih]
    show nextMinute (nextMinute T0 + 60 * (n : ℤ)) = nextMinute T0 + 60 * ((n + 1 : ℕ) : ℤ)
    have harg : nextMinute T0 + 60 * (n : ℤ) = 60 * (T0.fdiv 60 + 1 + n) := by
      unfold nextMinute
      ring
    rw [harg, nextMinute_mul]
    unfold nextMinute
    push_cast
    ring

/-- C5 (amended): for the every-minute expression registered at wall
clock T0 and loop time L0, the n-th nextFireTime value (0-indexed) is
L0 + (M - T0) + 60 n, where M is the first minute boundary strictly
after T0; it equals L0 + 60 (n + 1) exactly when T0 lies on a minute
boundary, and consecutive values are always exactly 60 seconds apart,
independent of any wall-clock drift after registration. -/
theorem c5_minutely_cadence (T0 L0 : Time) (n : Nat) :
    (getNextIter minutelySem (_register_param T0 T0 L0 (initState c5ArgDict))
        "* * * * *" n).map Prod.fst
      = some (L0 + (nextMinute T0 - T0) + 60 * (n : ℤ)) := by
  have he : alookup (_register_param T0 T0 L0 (initState c5ArgDict)).crontab_router
      "* * * * *" = some ⟨"f", ⟨"* * * * *", T0⟩, none⟩ := by
    simp [_register_param, c5ArgDict, initState, regStep, upsert, alookup]
  have h := getNextIter_spec minutelySem _ "* * * * *" ⟨"f", ⟨"* * * * *", T0⟩, none⟩
    L0 T0 (register_loop_time T0 T0 L0 _) (register_time T0 T0 L0 _) he n
  rw [h, minutely_tick]
  congr 1
  ring

/-- C5 counterexample: registered at wall clock T0 = 30 (not on a minute
boundary) with loop time L0 = 0, the first nextFireTime is 30, not
L0 + 60 = 60 as the claim states. -/
theorem c5_counterexample :
    (getNextIter minutelySem (_register_param 30 30 0 (initState c5ArgDict))
        "* * * * *" 0).map Prod.fst = some 30 ∧
    ((30 : Time) ≠ 0 + 60) := by
  refine ⟨?_, ?_⟩ <;> decide

/-! The pub/sub dispatcher claims. -/

/-- C2 (amended): for every message received on a subscription, the
dispatcher looks the handler up by the subscription's channel name (the
subscribed pattern) in the channel table, and when that name is routed it
invokes that handler exactly once per message with the concrete
originating channel name and the decoded payload as arguments. -/
theorem c2_pattern_dispatch (router : List (String × HandlerId)) (chName : String)
    (h : HandlerId) (hh : alookup router chName = some h) (msgs : List Msg) :
    _msg_reader router chName msgs
      = ReaderOutcome.finished
          (msgs.map fun m => ⟨h, m.real_channel, m.payload⟩) := by
  induction msgs with
  | nil => rfl
  | cons m ms ih => simp [_msg_reader, hh, ih]

/-- C2 witness: a message on the subscription named "ticks" routed to
handler on_tick is dispatched exactly once with ("ticks", payload). -/
theorem c2_pattern_dispatch_witness :
    alookup [("ticks", "on_tick")] "ticks" = some "on_tick" ∧
      _msg_reader [("ticks", "on_tick")] "ticks" [⟨"ticks", "42"⟩]
        = ReaderOutcome.finished [⟨"on_tick", "ticks", "42"⟩] :=
  ⟨rfl, by
    simpa using c2_pattern_dispatch [("ticks", "on_tick")] "ticks" "on_tick" rfl
      [⟨"ticks", "42"⟩]⟩

/-- C2 counterexample: the claim says the handler is looked up by the
concrete originating channel, not the subscribed pattern.  With a route
for the pattern "orders:*" and a distinct route for the concrete channel
"orders:123", a message with concrete channel "orders:123" arriving on
the subscription named "orders:*" is dispatched to the pattern's handler
h1, not to h2, the handler the channel table binds to the concrete
channel. -/
theorem c2_counterexample :
    _msg_reader [("orders:*", "h1"), ("orders:123", "h2")] "orders:*"
        [⟨"orders:123", "p"⟩]
      = ReaderOutcome.finished [⟨"h1", "orders:123", "p"⟩] ∧
    alookup [("orders:*", "h1"), ("orders:123", "h2")] "orders:123" = some "h2" ∧
    _msg_reader [("orders:*", "h1"), ("orders:123", "h2")] "orders:*"
        [⟨"orders:123", "p"⟩]
      ≠ ReaderOutcome.finished [⟨"h2", "orders:123", "p"⟩] := by
  refine ⟨rfl, rfl, ?_⟩
  decide

/-- C3 (amended): a message arriving on a subscription whose channel name
has no entry in the channel table invokes no handler, and the uncaught
KeyError terminates the read loop: the remaining messages are not read. -/
theorem c3_unrouted_crashes (router : List (String × HandlerId)) (chName : String)
    (hh : alookup router chName = none) (m : Msg) (ms : List Msg) :
    _msg_reader router chName (m :: ms) = ReaderOutcome.crashed [] ms := by
  simp [_msg_reader, hh]

/-- C3 witness: with an empty channel table, the first message kills the
read loop with no invocation and one message left unread. -/
theorem c3_unrouted_crashes_witness :
    alookup ([] : List (String × HandlerId)) "x" = none ∧
      _msg_reader [] "x" [⟨"a", "p1"⟩, ⟨"b", "p2"⟩]
        = ReaderOutcome.crashed [] [⟨"b", "p2"⟩] :=
  ⟨rfl, c3_unrouted_crashes [] "x" rfl ⟨"a", "p1"⟩ [⟨"b", "p2"⟩]⟩

/-- C3 counterexample: the claim says a message on a channel with no
registered handler leaves the read loop running.  With no registered
handler at all, the loop crashes on the first of two messages and never
reads the second, instead of finishing the stream with no invocation. -/
theorem c3_counterexample :
    _msg_reader [] "x" [⟨"a", "p1"⟩, ⟨"b", "p2"⟩]
      = ReaderOutcome.crashed [] [⟨"b", "p2"⟩] ∧
    _msg_reader [] "x" [⟨"a", "p1"⟩, ⟨"b", "p2"⟩] ≠ ReaderOutcome.finished [] := by
  refine ⟨rfl, ?_⟩
  decide

/-! The lifecycle claims that evaluate directly. -/

/-- C10: if the stop() hook raises during uninstall, the exception is
swallowed by the except clause (uninstall still returns a state), but no
teardown step runs: the whole module state — subscriptions, timers, cron
handles, reader-task bookkeeping and the initialized flag — is exactly
what it was before the call. -/
theorem c10_stop_failure_skips_teardown (s : ModuleState) :
    uninstall false s = s ∧
    (uninstallAux false s).2 = some "stop raised" ∧
    (uninstall false s).sub_client = s.sub_client ∧
    (uninstall false s).loop = s.loop ∧
    (uninstall false s).sub_tasks = s.sub_tasks ∧
    (uninstall false s).crontab_router = s.crontab_router ∧
    (uninstall false s).initialized = s.initialized :=
  ⟨rfl, rfl, rfl, rfl, rfl, rfl, rfl⟩

/-- C8: the claim says install cancels any pre-existing pending handle
before arming.  In the code _register_param resets every handle to None
before install's cancel check runs, so the check never fires: after a
second install the timer armed by the first install (index 0, still not
cancelled) is live together with the newly armed one — two live timers
for the key, and the first install's handle was never cancelled. -/
theorem c8_double_install_two_live_timers :
    liveCountFor (install c8Sem 0 0 0 true (initState c8ArgDict)).loop "e" = 1 ∧
    liveCountFor
        (install c8Sem 100 100 100 true
          (install c8Sem 0 0 0 true (initState c8ArgDict))).loop "e" = 2 ∧
    (install c8Sem 100 100 100 true
        (install c8Sem 0 0 0 true (initState c8ArgDict))).loop.timers.get? 0
      = some ⟨"e", 60, false⟩ := by
  refine ⟨?_, ?_, ?_⟩ <;> decide

/-! Registry discovery characterization and idempotence. -/

theorem mem_keys_of_alookup {α : Type} (l : List (String × α)) (k : String) (v : α)
    (h : alookup l k = some v) : k ∈ l.map Prod.fst :=
  List.mem_map_of_mem Prod.fst (alookup_mem l k v h)

theorem regStep_chan_lookup (w : Time) (s : ModuleState) (p : String × HandlerArgs)
    (ch : String) :
    alookup (regStep w s p).channel_router ch
      = match chanBind p ch with
        | some v => some v
        | none => alookup s.channel_router ch := by
  obtain ⟨nm, oc, och⟩ := p
  cases oc with
  | some ex => simp [regStep, chanBind]
  | none =>
    cases och with
    | none => simp [regStep, chanBind]
    | some c =>
      by_cases hc : c = ch
      · subst hc
        simp [regStep, chanBind, alookup_upsert_self]
      · simp [regStep, chanBind, hc,
          alookup_upsert_ne _ _ _ _ (fun hh => hc hh.symm)]

theorem regFold_chan_lookup (w : Time) (l : List (String × HandlerArgs))
    (s : ModuleState) (ch : String) :
    alookup (l.foldl (regStep w) s).channel_router ch
      = match lastOf chanBind l ch with
        | some v => some v
        | none => alookup s.channel_router ch := by
  induction l generalizing s with
  | nil => simp [lastOf]
  | cons p l ih =>
    simp only [List.foldl_cons, lastOf]
    rw [ih (regStep w s p), regStep_chan_lookup]
    cases hl : lastOf chanBind l ch <;> cases hb : chanBind p ch <;> simp [hl, hb]

theorem regStep_cron_lookup (w : Time) (s : ModuleState) (p : String × HandlerArgs)
    (k : String) :
    (alookup (regStep w s p).crontab_router k).map CronEntry.func
      = match cronBind p k with
        | some v => some v
        | none => (alookup s.crontab_router k).map CronEntry.func := by
  obtain ⟨nm, oc, och⟩ := p
  cases oc with
  | none => cases och <;> simp [regStep, cronBind]
  | some ex =>
    by_cases hx : ex = k
    · subst hx
      simp [regStep, cronBind, alookup_upsert_self]
    · simp [regStep, cronBind, hx,
        alookup_upsert_ne _ _ _ _ (fun hh => hx hh.symm)]

theorem regFold_cron_lookup (w : Time) (l : List (String × HandlerArgs))
    (s : ModuleState) (k : String) :
    (alookup (l.foldl (regStep w) s).crontab_router k).map CronEntry.func
      = match lastOf cronBind l k with
        | some v => some v
        | none => (alookup s.crontab_router k).map CronEntry.func := by
  induction l generalizing s with
  | nil => simp [lastOf]
  | cons p l ih =>
    simp only [List.foldl_cons, lastOf]
    rw [ih (regStep w s p), regStep_cron_lookup]
    cases hl : lastOf cronBind l k <;> cases hb : cronBind p k <;> simp [hl, hb]

theorem register_chan_lookup (w t lt : Time) (s : ModuleState) (ch : String) :
    alookup (_register_param w t lt s).channel_router ch
      = match lastOf chanBind s.module_arg_dict ch with
        | some v => some v
        | none => alookup s.channel_router ch := by
  unfold _register_param
  rw [regFold_chan_lookup]

theorem register_cron_lookup (w t lt : Time) (s : ModuleState) (k : String) :
    (alookup (_register_param w t lt s).crontab_router k).map CronEntry.func
      = match lastOf cronBind s.module_arg_dict k with
        | some v => some v
        | none => (alookup s.crontab_router k).map CronEntry.func := by
  unfold _register_param
  rw [regFold_cron_lookup]

/-- C9: running registry discovery twice on an unchanged module instance
produces identical routing tables: every channel lookup agrees, every
cron lookup binds the same handler method, and the two cron tables route
exactly the same set of keys.  (The croniter seed and the clock
snapshots are refreshed by the second run, but the claim is about keys
and handler bindings.) -/
theorem c9_discovery_idempotent (w1 t1 l1 w2 t2 l2 : Time) (s : ModuleState) :
    (∀ ch,
      alookup (_register_param w2 t2 l2 (_register_param w1 t1 l1 s)).channel_router ch
        = alookup (_register_param w1 t1 l1 s).channel_router ch) ∧
    (∀ k,
      (alookup (_register_param w2 t2 l2
          (_register_param w1 t1 l1 s)).crontab_router k).map CronEntry.func
        = (alookup (_register_param w1 t1 l1 s).crontab_router k).map CronEntry.func) ∧
    (∀ k,
      (alookup (_register_param w2 t2 l2
          (_register_param w1 t1 l1 s)).crontab_router k).isSome
        = (alookup (_register_param w1 t1 l1 s).crontab_router k).isSome) := by
  have hdict : (_register_param w1 t1 l1 s).module_arg_dict = s.module_arg_dict :=
    register_module_arg_dict w1 t1 l1 s
  have hchan : ∀ ch,
      alookup (_register_param w2 t2 l2 (_register_param w1 t1 l1 s)).channel_router ch
        = alookup (_register_param w1 t1 l1 s).channel_router ch := by
    intro ch
    rw [register_chan_lookup w2 t2 l2 _ ch, hdict]
    cases hl : lastOf chanBind s.module_arg_dict ch with
    | some v =>
      simp only [hl]
      rw [register_chan_lookup w1 t1 l1 s ch, hl]
    | none => simp only [hl]
  have hcron : ∀ k,
      (alookup (_register_param w2 t2 l2
          (_register_param w1 t1 l1 s)).crontab_router k).map CronEntry.func
        = (alookup (_register_param w1 t1 l1 s).crontab_router k).map CronEntry.func := by
    intro k
    rw [register_cron_lookup w2 t2 l2 _ k, hdict]
    cases hl : lastOf cronBind s.module_arg_dict k with
    | some v =>
      simp only [hl]
      rw [register_cron_lookup w1 t1 l1 s k, hl]
    | none => simp only [hl]
  refine ⟨hchan, hcron, fun k => ?_⟩
  have h1 := congrArg Option.isSome (hcron k)
  simpa using h1

/-! Field preservation through arming, and the install state machine. -/

theorem _get_next_eq (sem : String → Time → Time) (s : ModuleState) (k : String)
    (e : CronEntry) (lt wt : Time) (hlt : s.loop_time = some lt) (hwt : s.time = some wt)
    (he : alookup s.crontab_router k = some e) :
    _get_next sem s k = some (lt + (sem e.iter.expr e.iter.cur - wt),
      { s with crontab_router :=
          (upsert s.crontab_router k
            ⟨e.func, ⟨e.iter.expr, sem e.iter.expr e.iter.cur⟩, e.handle⟩) }) := by
  simp [_get_next, hlt, hwt, he]

theorem _get_next_proj (sem : String → Time → Time) (s : ModuleState) (k : String)
    (t : Time) (s2 : ModuleState) (h : _get_next sem s k = some (t, s2)) :
    s2.initialized = s.initialized ∧ s2.sub_client = s.sub_client ∧
    s2.sub_tasks = s.sub_tasks ∧ s2.sub_channels = s.sub_channels ∧
    s2.channel_router = s.channel_router ∧ s2.loop = s.loop ∧
    s2.loop_time = s.loop_time ∧ s2.time = s.time ∧
    s2.module_arg_dict = s.module_arg_dict ∧ s2.cron_tasks = s.cron_tasks ∧
    s2.crontab_router.map Prod.fst = s.crontab_router.map Prod.fst := by
  unfold _get_next at h
  split at h
  · rename_i lt wt e hlt hwt he
    rw [Option.some.injEq, Prod.mk.injEq] at h
    obtain ⟨h1, h2⟩ := h
    subst h2
    refine ⟨rfl, rfl, rfl, rfl, rfl, rfl, rfl, rfl, rfl, rfl, ?_⟩
    exact map_fst_upsert_mem _ _ _ (mem_keys_of_alookup _ _ _ he)
  · simp at h

theorem armAt_proj (sem : String → Time → Time) (s : ModuleState) (k : String) :
    (armAt sem s k).initialized = s.initialized ∧
    (armAt sem s k).sub_client = s.sub_client ∧
    (armAt sem s k).sub_tasks = s.sub_tasks ∧
    (armAt sem s k).sub_channels = s.sub_channels ∧
    (armAt sem s k).channel_router = s.channel_router ∧
    (armAt sem s k).loop_time = s.loop_time ∧
    (armAt sem s k).time = s.time ∧
    (armAt sem s k).module_arg_dict = s.module_arg_dict ∧
    (armAt sem s k).cron_tasks = s.cron_tasks ∧
    (armAt sem s k).crontab_router.map Prod.fst = s.crontab_router.map Prod.fst := by
  unfold armAt
  cases hg : _get_next sem s k with
  | none => simp
  | some pr =>
    obtain ⟨t, s2⟩ := pr
    obtain ⟨p1, p2, p3, p4, p5, p6, p7, p8, p9, p10, p11⟩ :=
      _get_next_proj sem s k t s2 hg
    cases hl : alookup s2.crontab_router k with
    | none => simp [hl, p1, p2, p3, p4, p5, p7, p8, p9, p10, p11]
    | some e2 =>
      have hkeys : (upsert s2.crontab_router k ⟨e2.func, e2.iter,
          some s2.loop.timers.length⟩).map Prod.fst
          = s2.crontab_router.map Prod.fst :=
        map_fst_upsert_mem _ _ _ (mem_keys_of_alookup _ _ _ hl)
      simp [hl, EventLoop.call_at, p1, p2, p3, p4, p5, p7, p8, p9, p10, hkeys, p11]

theorem armKey_proj (sem : String → Time → Time) (s : ModuleState) (k : String) :
    (armKey sem s k).initialized = s.initialized ∧
    (armKey sem s k).sub_client = s.sub_client ∧
    (armKey sem s k).sub_tasks = s.sub_tasks ∧
    (armKey sem s k).sub_channels = s.sub_channels ∧
    (armKey sem s k).channel_router = s.channel_router ∧
    (armKey sem s k).loop_time = s.loop_time ∧
    (armKey sem s k).time = s.time ∧
    (armKey sem s k).module_arg_dict = s.module_arg_dict ∧
    (armKey sem s k).cron_tasks = s.cron_tasks ∧
    (armKey sem s k).crontab_router.map Prod.fst = s.crontab_router.map Prod.fst := by
  unfold armKey
  cases he : alookup s.crontab_router k with
  | none => simp
  | some e =>
    cases hh : e.handle with
    | none => simpa [hh] using armAt_proj sem s k
    | some hd => simpa [hh] using armAt_proj sem { s with loop := s.loop.cancel hd } k

theorem armKeys_proj (sem : String → Time → Time) (ks : List String) (s : ModuleState) :
    (armKeys sem ks s).initialized = s.initialized ∧
    (armKeys sem ks s).sub_client = s.sub_client ∧
    (armKeys sem ks s).sub_tasks = s.sub_tasks ∧
    (armKeys sem ks s).sub_channels = s.sub_channels ∧
    (armKeys sem ks s).channel_router = s.channel_router ∧
    (armKeys sem ks s).loop_time = s.loop_time ∧
    (armKeys sem ks s).time = s.time ∧
    (armKeys sem ks s).module_arg_dict = s.module_arg_dict ∧
    (armKeys sem ks s).cron_tasks = s.cron_tasks ∧
    (armKeys sem ks s).crontab_router.map Prod.fst = s.crontab_router.map Prod.fst := by
  induction ks generalizing s with
  | nil => exact ⟨rfl, rfl, rfl, rfl, rfl, rfl, rfl, rfl, rfl, rfl⟩
  | cons k ks ih =>
    obtain ⟨a1, a2, a3, a4, a5, a6, a7, a8, a9, a10⟩ := armKey_proj sem s k
    obtain ⟨b1, b2, b3, b4, b5, b6, b7, b8, b9, b10⟩ := ih (armKey sem s k)
    simp only [armKeys, List.foldl_cons]
    exact ⟨b1.trans a1, b2.trans a2, b3.trans a3, b4.trans a4, b5.trans a5,
      b6.trans a6, b7.trans a7, b8.trans a8, b9.trans a9, b10.trans a10⟩

theorem armAll_initialized (sem : String → Time → Time) (s : ModuleState) :
    (armAll sem s).initialized = s.initialized :=
  (armKeys_proj sem (s.crontab_router.map Prod.fst) s).1

/-- C6: install sets initialized to true exactly when the whole sequence
(discovery, bulk subscription, reader spawning, timer arming, start()
hook) ran without an exception; when any step of the modelled sequence
raises, the exception is swallowed (installAux returns the partial state
and the recorded error instead of propagating) and initialized remains
false. -/
theorem c6_install_initialized (sem : String → Time → Time) (w t lt : Time)
    (startOk : Bool) (s : ModuleState) (h : s.initialized = false) :
    ((installAux sem w t lt startOk s).2 = none →
      (installAux sem w t lt startOk s).1.initialized = true) ∧
    ((installAux sem w t lt startOk s).2 ≠ none →
      (installAux sem w t lt startOk s).1.initialized = false) := by
  unfold installAux
  cases hp : psubscribe (_register_param w t lt s).sub_client
      ((_register_param w t lt s).channel_router.map Prod.fst) with
  | error err =>
    constructor
    · intro hn
      simp [hp] at hn
    · intro _
      simp [hp, register_initialized, h]
  | ok pr =>
    cases startOk with
    | true =>
      constructor
      · intro _
        simp [hp]
      · intro hn
        simp [hp] at hn
    | false =>
      constructor
      · intro hn
        simp [hp] at hn
      · intro _
        simp [hp, armAll_initialized, subWired, register_initialized, h]

/-- C6 witness: on a fresh module whose start() hook raises, install
swallows the failure and initialized stays false (and with a succeeding
hook installAux reports no error and initialized becomes true). -/
theorem c6_install_initialized_witness :
    (initState c8ArgDict).initialized = false ∧
    (((installAux c8Sem 0 0 0 false (initState c8ArgDict)).2 = none →
      (installAux c8Sem 0 0 0 false (initState c8ArgDict)).1.initialized = true) ∧
    ((installAux c8Sem 0 0 0 false (initState c8ArgDict)).2 ≠ none →
      (installAux c8Sem 0 0 0 false (initState c8ArgDict)).1.initialized = false)) :=
  ⟨rfl, c6_install_initialized c8Sem 0 0 0 false (initState c8ArgDict) rfl⟩

/-! Timer list lemmas. -/

theorem cancelTimer_length (l : List Timer) (i : Nat) :
    (cancelTimer l i).length = l.length := by
  induction l generalizing i with
  | nil => rfl
  | cons tm l ih =>
    cases i with
    | zero => rfl
    | succ n =>
      show (tm :: cancelTimer l n).length = (tm :: l).length
      simp [ih]

theorem cancelTimer_get_ne (l : List Timer) (i j : Nat) (h : j ≠ i) :
    (cancelTimer l i).get? j = l.get? j := by
  induction l generalizing i j with
  | nil => rfl
  | cons tm l ih =>
    cases i with
    | zero =>
      cases j with
      | zero => exact absurd rfl h
      | succ m => rfl
    | succ n =>
      cases j with
      | zero => rfl
      | succ m =>
        show (cancelTimer l n).get? m = l.get? m
        exact ih n m (fun hh => h (by rw [hh]))

theorem cancelTimer_get_self (l : List Timer) (i : Nat) (tm : Timer)
    (h : l.get? i = some tm) :
    (cancelTimer l i).get? i = some ⟨tm.key, tm.fireAt, true⟩ := by
  induction l generalizing i with
  | nil => simp at h
  | cons t0 l ih =>
    cases i with
    | zero =>
      simp only [List.get?] at h
      rw [Option.some.injEq] at h
      subst h
      rfl
    | succ n =>
      show (cancelTimer l n).get? n = _
      exact ih n (by simpa using h)

theorem handleOf_eq_some (s : ModuleState) (k : String) (j : Nat) :
    handleOf s k = some j ↔
      ∃ e, alookup s.crontab_router k = some e ∧ e.handle = some j := by
  unfold handleOf
  cases h : alookup s.crontab_router k <;> simp [h]

/-! Exact-state equations for the cancel-and-rearm step. -/

theorem armKey_eq_none (sem : String → Time → Time) (s : ModuleState) (k : String)
    (e : CronEntry) (lt wt : Time) (he : alookup s.crontab_router k = some e)
    (hh : e.handle = none) (hlt : s.loop_time = some lt) (hwt : s.time = some wt) :
    armKey sem s k = { s with
      loop := ⟨s.loop.timers ++ [⟨k, lt + (sem e.iter.expr e.iter.cur - wt), false⟩]⟩,
      crontab_router := (upsert s.crontab_router k
        ⟨e.func, ⟨e.iter.expr, sem e.iter.expr e.iter.cur⟩,
          some s.loop.timers.length⟩) } := by
  unfold armKey
  simp only [he, hh]
  unfold armAt
  rw [_get_next_eq sem s k e lt wt hlt hwt he]
  simp only [alookup_upsert_self, EventLoop.call_at, upsert_upsert]

theorem armKey_eq_cancel (sem : String → Time → Time) (s : ModuleState) (k : String)
    (e : CronEntry) (hd : Nat) (lt wt : Time) (he : alookup s.crontab_router k = some e)
    (hh : e.handle = some hd) (hlt : s.loop_time = some lt) (hwt : s.time = some wt) :
    armKey sem s k = { s with
      loop := ⟨cancelTimer s.loop.timers hd
        ++ [⟨k, lt + (sem e.iter.expr e.iter.cur - wt), false⟩]⟩,
      crontab_router := (upsert s.crontab_router k
        ⟨e.func, ⟨e.iter.expr, sem e.iter.expr e.iter.cur⟩,
          some s.loop.timers.length⟩) } := by
  unfold armKey
  simp only [he, hh]
  unfold armAt
  rw [_get_next_eq sem { s with loop := s.loop.cancel hd } k e lt wt hlt hwt he]
  simp only [alookup_upsert_self, EventLoop.call_at, upsert_upsert, EventLoop.cancel,
    cancelTimer_length]

theorem _call_next_spec (sem : String → Time → Time) (s : ModuleState) (k : String)
    (e : CronEntry) (lt wt : Time) (he : alookup s.crontab_router k = some e)
    (hlt : s.loop_time = some lt) (hwt : s.time = some wt) :
    _call_next sem s k = { s with
      loop := ⟨(match e.handle with
                | some hd => cancelTimer s.loop.timers hd
                | none => s.loop.timers)
        ++ [⟨k, lt + (sem e.iter.expr e.iter.cur - wt), false⟩]⟩,
      crontab_router := (upsert s.crontab_router k
        ⟨e.func, ⟨e.iter.expr, sem e.iter.expr e.iter.cur⟩,
          some s.loop.timers.length⟩),
      cron_tasks := s.cron_tasks ++ [e.func] } := by
  cases hh : e.handle with
  | none =>
    unfold _call_next
    rw [armKey_eq_none sem s k e lt wt he hh hlt hwt]
    simp only [alookup_upsert_self]
  | some hd =>
    unfold _call_next
    rw [armKey_eq_cancel sem s k e hd lt wt he hh hlt hwt]
    simp only [alookup_upsert_self]

/-! The single-live-timer invariant of the rearm step. -/

theorem live_base_none (s : ModuleState) (k : String) (e : CronEntry)
    (he : alookup s.crontab_router k = some e) (hg : GoodKey s k)
    (base : List Timer)
    (hbase : base = match e.handle with
      | some hd => cancelTimer s.loop.timers hd
      | none => s.loop.timers) :
    ∀ i tm, base.get? i = some tm → ¬(tm.key = k ∧ tm.cancelled = false) := by
  intro i tm hget hc
  obtain ⟨hk, hcc⟩ := hc
  have hhandle : handleOf s k = e.handle := by
    unfold handleOf
    rw [he]
  cases hh : e.handle with
  | none =>
    rw [hh] at hbase
    subst hbase
    have := hg i tm hget hk hcc
    rw [hhandle, hh] at this
    exact Option.noConfusion this
  | some hd =>
    rw [hh] at hbase
    subst hbase
    by_cases hi : i = hd
    · subst hi
      cases h0 : s.loop.timers.get? i with
      | none =>
        have : (cancelTimer s.loop.timers i).get? i = none := by
          rw [List.get?_eq_none] at h0 ⊢
          rwa [cancelTimer_length]
        rw [this] at hget
        exact Option.noConfusion hget
      | some tm0 =>
        have := cancelTimer_get_self s.loop.timers i tm0 h0
        rw [this] at hget
        rw [Option.some.injEq] at hget
        subst hget
        simp at hcc
    · rw [cancelTimer_get_ne s.loop.timers hd i hi] at hget
      have := hg i tm hget hk hcc
      rw [hhandle, hh] at this
      rw [Option.some.injEq] at this
      exact hi this.symm

theorem call_next_good (sem : String → Time → Time) (s : ModuleState) (k : String)
    (e : CronEntry) (lt wt : Time) (he : alookup s.crontab_router k = some e)
    (hlt : s.loop_time = some lt) (hwt : s.time = some wt) (hg : GoodKey s k) :
    liveCountFor (_call_next sem s k).loop k = 1 ∧
    GoodKey (_call_next sem s k) k ∧
    alookup (_call_next sem s k).crontab_router k
      = some ⟨e.func, ⟨e.iter.expr, sem e.iter.expr e.iter.cur⟩,
          some s.loop.timers.length⟩ ∧
    (_call_next sem s k).loop_time = some lt ∧
    (_call_next sem s k).time = some wt := by
  rw [_call_next_spec sem s k e lt wt he hlt hwt]
  have hbase0 := live_base_none s k e he hg
    (match e.handle with
      | some hd => cancelTimer s.loop.timers hd
      | none => s.loop.timers) rfl
  have hblen : (match e.handle with
      | some hd => cancelTimer s.loop.timers hd
      | none => s.loop.timers).length = s.loop.timers.length := by
    cases e.handle with
    | none => rfl
    | some hd => exact cancelTimer_length _ _
  refine ⟨?_, ?_, alookup_upsert_self _ _ _, hlt, hwt⟩
  · show List.countP _ (_ ++ [_]) = 1
    rw [List.countP_append]
    have hz : List.countP (fun tm => decide (tm.key = k ∧ tm.cancelled = false))
        (match e.handle with
          | some hd => cancelTimer s.loop.timers hd
          | none => s.loop.timers) = 0 := by
      rw [List.countP_eq_zero]
      intro a ha
      rw [List.mem_iff_get?] at ha
      obtain ⟨n, hn⟩ := ha
      have := hbase0 n a hn
      simpa using this
    rw [hz]
    simp
  · intro i tm hget hk hcc
    have hhof : handleOf
        ({ s with
          loop := ⟨(match e.handle with
                    | some hd => cancelTimer s.loop.timers hd
                    | none => s.loop.timers)
            ++ [⟨k, lt + (sem e.iter.expr e.iter.cur - wt), false⟩]⟩,
          crontab_router := (upsert s.crontab_router k
            ⟨e.func, ⟨e.iter.expr, sem e.iter.expr e.iter.cur⟩,
              some s.loop.timers.length⟩),
          cron_tasks := s.cron_tasks ++ [e.func] } : ModuleState) k
        = some s.loop.timers.length := by
      unfold handleOf
      rw [alookup_upsert_self]
    rw [hhof]
    rcases Nat.lt_trichotomy i s.loop.timers.length with hlt2 | heq2 | hgt2
    · exfalso
      rw [List.get?_append (by rw [hblen]; exact hlt2)] at hget
      exact hbase0 i tm hget ⟨hk, hcc⟩
    · rw [heq2]
    · exfalso
      have hnone : ((match e.handle with
          | some hd => cancelTimer s.loop.timers hd
          | none => s.loop.timers)
        ++ [(⟨k, lt + (sem e.iter.expr e.iter.cur - wt), false⟩ : Timer)]).get? i
          = none := by
        rw [List.get?_eq_none]
        rw [List.length_append, hblen]
        simpa using hgt2
      rw [hnone] at hget
      exact Option.noConfusion hget

/-- C4: the rearm step keeps at most one live timer per cron key: under
the invariant that every live timer for the key is the one its pending
handle refers to, _call_next cancels the prior pending handle (when
there is one) before installing exactly one new timer, so after a rearm,
and equally after two rearms in immediate succession, exactly one live
timer exists for the key; the invariant is preserved, and when no timer
is pending the cancel branch is skipped, leaving every pre-existing
timer untouched. -/
theorem c4_single_live_timer (sem : String → Time → Time) (s : ModuleState) (k : String)
    (e : CronEntry) (lt wt : Time) (he : alookup s.crontab_router k = some e)
    (hlt : s.loop_time = some lt) (hwt : s.time = some wt) (hg : GoodKey s k) :
    liveCountFor (_call_next sem s k).loop k = 1 ∧
    GoodKey (_call_next sem s k) k ∧
    liveCountFor (_call_next sem (_call_next sem s k) k).loop k = 1 ∧
    (e.handle = none →
      (_call_next sem s k).loop.timers
        = s.loop.timers ++ [⟨k, lt + (sem e.iter.expr e.iter.cur - wt), false⟩]) := by
  obtain ⟨h1, h2, h3, h4, h5⟩ := call_next_good sem s k e lt wt he hlt hwt hg
  obtain ⟨g1, g2, g3, g4, g5⟩ := call_next_good sem (_call_next sem s k) k
    ⟨e.func, ⟨e.iter.expr, sem e.iter.expr e.iter.cur⟩,
      some s.loop.timers.length⟩ lt wt h3 h4 h5 h2
  refine ⟨h1, h2, g1, fun hh => ?_⟩
  rw [_call_next_spec sem s k e lt wt he hlt hwt, hh]

/-- C4 witness: a freshly registered key (no pending handle, empty loop)
satisfies the invariant, and one rearm leaves exactly one live timer. -/
theorem c4_single_live_timer_witness :
    alookup (_register_param 0 0 0 (initState c8ArgDict)).crontab_router "e"
      = some ⟨"cronf", ⟨"e", 0⟩, none⟩ ∧
    GoodKey (_register_param 0 0 0 (initState c8ArgDict)) "e" ∧
    liveCountFor (_call_next c8Sem (_register_param 0 0 0 (initState c8ArgDict)) "e").loop
      "e" = 1 := by
  have he : alookup (_register_param 0 0 0 (initState c8ArgDict)).crontab_router "e"
      = some ⟨"cronf", ⟨"e", 0⟩, none⟩ := by decide
  have hg : GoodKey (_register_param 0 0 0 (initState c8ArgDict)) "e" := by
    intro i tm hget hk hcc
    have : (_register_param 0 0 0 (initState c8ArgDict)).loop.timers = [] := by decide
    rw [this] at hget
    simp at hget
  exact ⟨he, hg,
    (c4_single_live_timer c8Sem (_register_param 0 0 0 (initState c8ArgDict)) "e"
      ⟨"cronf", ⟨"e", 0⟩, none⟩ 0 0 he (by decide) (by decide) hg).1⟩

/-! Discovery leaves every handle cleared and the key lists duplicate
free. -/

theorem mem_upsert {α : Type} (l : List (String × α)) (k : String) (v : α)
    (q : String × α) (h : q ∈ upsert l k v) : q ∈ l ∨ q = (k, v) := by
  induction l with
  | nil => simpa [upsert] using h
  | cons p l ih =>
    obtain ⟨k1, v1⟩ := p
    by_cases h1 : k1 = k
    · subst h1
      simp only [upsert, if_pos rfl] at h
      rcases List.mem_cons.mp h with h2 | h2
      · right
        exact h2
      · left
        exact List.mem_cons_of_mem _ h2
    · simp only [upsert, if_neg h1] at h
      rcases List.mem_cons.mp h with h2 | h2
      · left
        exact h2 ▸ List.mem_cons_self _ _
      · rcases ih h2 with h3 | h3
        · left
          exact List.mem_cons_of_mem _ h3
        · right
          exact h3

theorem regFold_handles_none (w : Time) (l : List (String × HandlerArgs))
    (s : ModuleState)
    (hs : ∀ q ∈ s.crontab_router, (Prod.snd q).handle = none) :
    ∀ q ∈ (l.foldl (regStep w) s).crontab_router, (Prod.snd q).handle = none := by
  induction l generalizing s with
  | nil => exact hs
  | cons p l ih =>
    refine ih (regStep w s p) ?_
    intro q hq
    obtain ⟨nm, oc, och⟩ := p
    cases oc with
    | some ex =>
      simp only [regStep] at hq
      rcases mem_upsert _ _ _ q hq with h2 | h2
      · exact hs q h2
      · rw [h2]
    | none =>
      cases och <;> simp only [regStep] at hq <;> exact hs q hq

theorem regFold_keys_nodup (w : Time) (l : List (String × HandlerArgs))
    (s : ModuleState) (hs : (s.crontab_router.map Prod.fst).Nodup) :
    ((l.foldl (regStep w) s).crontab_router.map Prod.fst).Nodup := by
  induction l generalizing s with
  | nil => exact hs
  | cons p l ih =>
    refine ih (regStep w s p) ?_
    obtain ⟨nm, oc, och⟩ := p
    cases oc with
    | some ex =>
      simp only [regStep]
      exact nodup_map_fst_upsert _ _ _ hs
    | none =>
      cases och <;> simp only [regStep] <;> exact hs

/-! Behaviour of the arming loop started from handle-free entries. -/

theorem armKeys_spec (sem : String → Time → Time) (ks : List String) (s : ModuleState)
    (lt wt : Time) (hlt : s.loop_time = some lt) (hwt : s.time = some wt)
    (hnd : ks.Nodup)
    (hks : ∀ k, k ∈ ks → ∃ e, alookup s.crontab_router k = some e ∧ e.handle = none) :
    (armKeys sem ks s).loop.timers.length = s.loop.timers.length + ks.length ∧
    (∀ i, i < s.loop.timers.length →
      (armKeys sem ks s).loop.timers.get? i = s.loop.timers.get? i) ∧
    (∀ i, (hi : i < ks.length) →
      (∃ tm : Timer,
        (armKeys sem ks s).loop.timers.get? (s.loop.timers.length + i) = some tm ∧
        tm.cancelled = false) ∧
      handleOf (armKeys sem ks s) (ks.get ⟨i, hi⟩)
        = some (s.loop.timers.length + i)) ∧
    (∀ k, k ∉ ks →
      alookup (armKeys sem ks s).crontab_router k = alookup s.crontab_router k) := by
  induction ks generalizing s with
  | nil =>
    exact ⟨by simp [armKeys], fun i _ => rfl, fun i hi => absurd hi (by simp),
      fun k _ => rfl⟩
  | cons k0 ks ih =>
    obtain ⟨e, he, hh⟩ := hks k0 (List.mem_cons_self _ _)
    have harmt : armKeys sem (k0 :: ks) s = armKeys sem ks (armKey sem s k0) := rfl
    have harm := armKey_eq_none sem s k0 e lt wt he hh hlt hwt
    have hnd0 : k0 ∉ ks := (List.nodup_cons.mp hnd).1
    have hndt : ks.Nodup := (List.nodup_cons.mp hnd).2
    have hlt1 : (armKey sem s k0).loop_time = some lt := by
      rw [harm]
      exact hlt
    have hwt1 : (armKey sem s k0).time = some wt := by
      rw [harm]
      exact hwt
    have hks1 : ∀ k, k ∈ ks → ∃ e2,
        alookup (armKey sem s k0).crontab_router k = some e2 ∧ e2.handle = none := by
      intro k hk
      obtain ⟨e2, he2, hh2⟩ := hks k (List.mem_cons_of_mem _ hk)
      have hne : k ≠ k0 := fun hkk => hnd0 (hkk ▸ hk)
      refine ⟨e2, ?_, hh2⟩
      rw [harm]
      show alookup (upsert s.crontab_router k0 _) k = some e2
      rw [alookup_upsert_ne _ _ _ _ hne]
      exact he2
    obtain ⟨l1, l2, l3, l4⟩ := ih (armKey sem s k0) hlt1 hwt1 hndt hks1
    have hlen1 : (armKey sem s k0).loop.timers.length = s.loop.timers.length + 1 := by
      rw [harm]
      simp
    refine ⟨?_, ?_, ?_, ?_⟩
    · rw [harmt, l1, hlen1]
      simp [Nat.add_assoc, Nat.add_comm 1 ks.length]
    · intro i hin
      rw [harmt, l2 i (by omega)]
      rw [harm]
      show (s.loop.timers ++ [_]).get? i = s.loop.timers.get? i
      exact List.get?_append hin
    · intro i hi
      cases i with
      | zero =>
        constructor
        · refine ⟨⟨k0, lt + (sem e.iter.expr e.iter.cur - wt), false⟩, ?_, rfl⟩
          rw [harmt, l2 (s.loop.timers.length + 0) (by omega)]
          rw [harm]
          show (s.loop.timers ++ [_]).get? (s.loop.timers.length + 0) = _
          exact List.get?_concat_length s.loop.timers _
        · show handleOf (armKeys sem ks (armKey sem s k0)) k0
            = some (s.loop.timers.length + 0)
          rw [handleOf_eq_some]
          refine ⟨⟨e.func, ⟨e.iter.expr, sem e.iter.expr e.iter.cur⟩,
            some s.loop.timers.length⟩, ?_, rfl⟩
          rw [l4 k0 hnd0, harm]
          exact alookup_upsert_self _ _ _
      | succ j =>
        have hj : j < ks.length := by
          simpa using hi
        obtain ⟨⟨tm, htm, hcc⟩, hhd⟩ := l3 j hj
        have hidx : s.loop.timers.length + (j + 1)
            = (armKey sem s k0).loop.timers.length + j := by
          rw [hlen1]
          omega
        constructor
        · refine ⟨tm, ?_, hcc⟩
          rw [harmt, hidx]
          exact htm
        · show handleOf (armKeys sem ks (armKey sem s k0)) (ks.get ⟨j, hj⟩)
            = some (s.loop.timers.length + (j + 1))
          rw [hidx]
          exact hhd
    · intro k hk
      have hk1 : k ∉ ks := fun h2 => hk (List.mem_cons_of_mem _ h2)
      have hkne : k ≠ k0 := fun h2 => hk (h2 ▸ List.mem_cons_self _ _)
      rw [harmt, l4 k hk1, harm]
      show alookup (upsert s.crontab_router k0 _) k = alookup s.crontab_router k
      exact alookup_upsert_ne _ _ _ _ hkne

/-! Behaviour of uninstall's cancellation loop. -/

theorem clearKey_eq (s : ModuleState) (k : String) (e : CronEntry) (hd : Nat)
    (he : alookup s.crontab_router k = some e) (hh : e.handle = some hd) :
    clearKey s k = { s with
      loop := ⟨cancelTimer s.loop.timers hd⟩,
      crontab_router := (upsert s.crontab_router k ⟨e.func, e.iter, none⟩) } := by
  unfold clearKey
  simp only [he, hh]
  rfl

theorem clearKeys_spec (ks : List String) (s : ModuleState) (off : Nat)
    (hnd : ks.Nodup)
    (hh : ∀ i, (hi : i < ks.length) → ∃ e,
        alookup s.crontab_router (ks.get ⟨i, hi⟩) = some e ∧
        e.handle = some (off + i)) :
    (∀ j tm, (clearKeys ks s).loop.timers.get? j = some tm → tm.cancelled = false →
      (j < off ∨ off + ks.length ≤ j) ∧
        ∃ tm2, s.loop.timers.get? j = some tm2 ∧ tm2.cancelled = false) ∧
    (∀ k, k ∈ ks → handleOf (clearKeys ks s) k = none) ∧
    (∀ k, k ∉ ks →
      alookup (clearKeys ks s).crontab_router k = alookup s.crontab_router k) ∧
    (clearKeys ks s).loop.timers.length = s.loop.timers.length ∧
    (clearKeys ks s).sub_client = s.sub_client ∧
    (clearKeys ks s).sub_tasks = s.sub_tasks ∧
    (clearKeys ks s).channel_router = s.channel_router := by
  induction ks generalizing s off with
  | nil =>
    exact ⟨fun j tm hg hc =>
        ⟨by simp only [List.length_nil, Nat.add_zero]; exact Nat.lt_or_ge j off,
          tm, hg, hc⟩,
      fun k hk => absurd hk (by simp), fun k _ => rfl, rfl, rfl, rfl, rfl⟩
  | cons k0 ks ih =>
    obtain ⟨e, he, hhd⟩ := hh 0 (by simp)
    have hstep := clearKey_eq s k0 e off he hhd
    have hclt : clearKeys (k0 :: ks) s = clearKeys ks (clearKey s k0) := rfl
    have hnd0 : k0 ∉ ks := (List.nodup_cons.mp hnd).1
    have hndt : ks.Nodup := (List.nodup_cons.mp hnd).2
    have hh1 : ∀ i, (hi : i < ks.length) → ∃ e2,
        alookup (clearKey s k0).crontab_router (ks.get ⟨i, hi⟩) = some e2 ∧
        e2.handle = some ((off + 1) + i) := by
      intro i hi
      obtain ⟨e2, he2, hd2⟩ := hh (i + 1) (by simpa using Nat.succ_lt_succ hi)
      have hne : ks.get ⟨i, hi⟩ ≠ k0 := fun hkk => hnd0 (hkk ▸ List.get_mem ks i hi)
      refine ⟨e2, ?_, ?_⟩
      · rw [hstep]
        show alookup (upsert s.crontab_router k0 _) _ = some e2
        rw [alookup_upsert_ne _ _ _ _ hne]
        exact he2
      · rw [hd2]
        congr 1
        omega
    obtain ⟨m1, m2, m3, m4, m5, m6, m7⟩ := ih (clearKey s k0) (off + 1) hndt hh1
    refine ⟨?_, ?_, ?_, ?_, ?_, ?_, ?_⟩
    · intro j tm hg hc
      rw [hclt] at hg
      obtain ⟨hrange, tm2, hg2, hc2⟩ := m1 j tm hg hc
      rw [hstep] at hg2
      by_cases hj : j = off
      · exfalso
        subst hj
        cases h0 : s.loop.timers.get? j with
        | none =>
          have hcn : (cancelTimer s.loop.timers j).get? j = none := by
            rw [List.get?_eq_none] at h0 ⊢
            rwa [cancelTimer_length]
          change (cancelTimer s.loop.timers j).get? j = some tm2 at hg2
          rw [hcn] at hg2
          exact Option.noConfusion hg2
        | some tm0 =>
          change (cancelTimer s.loop.timers j).get? j = some tm2 at hg2
          rw [cancelTimer_get_self s.loop.timers j tm0 h0] at hg2
          rw [Option.some.injEq] at hg2
          subst hg2
          simp at hc2
      · change (cancelTimer s.loop.timers off).get? j = some tm2 at hg2
        rw [cancelTimer_get_ne s.loop.timers off j hj] at hg2
        refine ⟨?_, tm2, hg2, hc2⟩
        rcases hrange with h1 | h1
        · left
          omega
        · right
          simp only [List.length_cons]
          omega
    · intro k hk
      rcases List.mem_cons.mp hk with hk0 | hk2
      · subst hk0
        have hlk : alookup (clearKeys ks (clearKey s k)).crontab_router k
            = some ⟨e.func, e.iter, none⟩ := by
          rw [m3 k hnd0, hstep]
          exact alookup_upsert_self _ _ _
        rw [hclt]
        unfold handleOf
        rw [hlk]
      · rw [hclt]
        exact m2 k hk2
    · intro k hk
      have hk1 : k ∉ ks := fun h2 => hk (List.mem_cons_of_mem _ h2)
      have hkne : k ≠ k0 := fun h2 => hk (h2 ▸ List.mem_cons_self _ _)
      rw [hclt, m3 k hk1, hstep]
      show alookup (upsert s.crontab_router k0 _) k = alookup s.crontab_router k
      exact alookup_upsert_ne _ _ _ _ hkne
    · rw [hclt, m4, hstep]
      exact cancelTimer_length _ _
    · rw [hclt, m5, hstep]
    · rw [hclt, m6, hstep]
    · rw [hclt, m7, hstep]

/-! The lifecycle equations used by the install-then-uninstall claim. -/

theorem psubscribe_open (pats : List String) :
    psubscribe ⟨[], false⟩ pats = .ok (pats, ⟨pats, false⟩) := by
  unfold psubscribe
  simp

theorem punsubscribe_self (pats : List String) :
    punsubscribe ⟨pats, false⟩ pats = .ok ⟨[], false⟩ := by
  unfold punsubscribe
  simp [List.filter_eq_nil]

theorem install_ok_eq (sem : String → Time → Time) (w t lt : Time) (s : ModuleState)
    (pr : List String × RedisClient)
    (hp : psubscribe (_register_param w t lt s).sub_client
        ((_register_param w t lt s).channel_router.map Prod.fst) = .ok pr) :
    install sem w t lt true s
      = { armAll sem (subWired (_register_param w t lt s) pr) with
          initialized := true } := by
  unfold install installAux
  simp only [hp]

theorem uninstall_ok_eq (s : ModuleState) (client : RedisClient)
    (hpun : punsubscribe s.sub_client (s.channel_router.map Prod.fst) = .ok client) :
    uninstall true s = { tornDown s client with initialized := false } := by
  unfold uninstall uninstallAux
  simp only [hpun]

theorem uninstall_err_eq (s : ModuleState) (err : String)
    (hpun : punsubscribe s.sub_client (s.channel_router.map Prod.fst) = .error err) :
    uninstall true s = s := by
  unfold uninstall uninstallAux
  simp only [hpun]

/-- C7: install() followed immediately by uninstall() on a fresh module
leaves zero live timer handles (every loop timer cancelled and every
cron handle cleared to None) and zero active subscriptions, with the
reader-task list empty and initialized false; a second uninstall() hits
the already-closed connection, the exception is swallowed, and the state
is returned exactly unchanged — a safe no-op with no escaping
exception. -/
theorem c7_install_uninstall (sem : String → Time → Time)
    (argDict : List (String × HandlerArgs)) (w t lt : Time) :
    liveCount (uninstall true (install sem w t lt true (initState argDict))).loop = 0 ∧
    (uninstall true (install sem w t lt true (initState argDict))).sub_client.patterns
      = [] ∧
    (uninstall true (install sem w t lt true (initState argDict))).sub_tasks = [] ∧
    (∀ k, handleOf (uninstall true (install sem w t lt true (initState argDict))) k
      = none) ∧
    (uninstall true (install sem w t lt true (initState argDict))).initialized
      = false ∧
    uninstall true (uninstall true (install sem w t lt true (initState argDict)))
      = uninstall true (install sem w t lt true (initState argDict)) := by
  set s0 := initState argDict with hs0
  set sreg := _register_param w t lt s0 with hsreg
  set pats := sreg.channel_router.map Prod.fst with hpats
  have hcli : sreg.sub_client = ⟨[], false⟩ := register_sub_client w t lt s0
  have hp : psubscribe sreg.sub_client pats = .ok (pats, ⟨pats, false⟩) := by
    rw [hcli]
    exact psubscribe_open pats
  have h1 : install sem w t lt true s0
      = { armAll sem (subWired sreg (pats, ⟨pats, false⟩)) with initialized := true } :=
    install_ok_eq sem w t lt s0 (pats, ⟨pats, false⟩) hp
  set sw := subWired sreg (pats, ⟨pats, false⟩) with hsw
  have hltw : sw.loop_time = some lt := register_loop_time w t lt s0
  have hwtw : sw.time = some t := register_time w t lt s0
  have hloopw : sw.loop.timers = [] := by
    have h2 : sreg.loop = s0.loop := register_loop w t lt s0
    show sreg.loop.timers = []
    rw [h2, hs0]
    rfl
  set ks := sw.crontab_router.map Prod.fst with hks0
  have hnd : ks.Nodup := by
    show ((_register_param w t lt s0).crontab_router.map Prod.fst).Nodup
    unfold _register_param
    exact regFold_keys_nodup w _ _ (by simp [hs0, initState])
  have hhn : ∀ q ∈ sw.crontab_router, (Prod.snd q).handle = none := by
    show ∀ q ∈ (_register_param w t lt s0).crontab_router, (Prod.snd q).handle = none
    unfold _register_param
    exact regFold_handles_none w _ _ (by simp [hs0, initState])
  have hksreq : ∀ k, k ∈ ks →
      ∃ e, alookup sw.crontab_router k = some e ∧ e.handle = none := by
    intro k hk
    obtain ⟨e, he⟩ := alookup_isSome sw.crontab_router k hk
    exact ⟨e, he, hhn (k, e) (alookup_mem _ _ _ he)⟩
  obtain ⟨a1, a2, a3, a4⟩ := armKeys_spec sem ks sw lt t hltw hwtw hnd hksreq
  set sarm := armKeys sem ks sw with hsarm
  have hs1 : install sem w t lt true s0 = { sarm with initialized := true } := h1
  obtain ⟨p1, p2, p3, p4, p5, p6, p7, p8, p9, p10⟩ := armKeys_proj sem ks sw
  have hpun : punsubscribe ({ sarm with initialized := true } : ModuleState).sub_client
      (({ sarm with initialized := true } : ModuleState).channel_router.map Prod.fst)
      = .ok ⟨[], false⟩ := by
    show punsubscribe sarm.sub_client (sarm.channel_router.map Prod.fst) = _
    rw [p2, p5]
    exact punsubscribe_self pats
  have h2 : uninstall true ({ sarm with initialized := true } : ModuleState)
      = { tornDown ({ sarm with initialized := true } : ModuleState) ⟨[], false⟩ with
          initialized := false } :=
    uninstall_ok_eq _ _ hpun
  set s3 : ModuleState :=
    { sarm with
      initialized := true,
      sub_client := ⟨[], true⟩,
      sub_tasks := [] } with hs3
  have hkeq : s3.crontab_router.map Prod.fst = ks := by
    show sarm.crontab_router.map Prod.fst = ks
    rw [p10]
  have htd : tornDown ({ sarm with initialized := true } : ModuleState) ⟨[], false⟩
      = clearKeys ks s3 := by
    show clearKeys (s3.crontab_router.map Prod.fst) s3 = clearKeys ks s3
    rw [hkeq]
  have hh3 : ∀ i, (hi : i < ks.length) → ∃ e,
      alookup s3.crontab_router (ks.get ⟨i, hi⟩) = some e ∧
      e.handle = some (0 + i) := by
    intro i hi
    have h3 := (a3 i hi).2
    rw [hloopw] at h3
    simp only [List.length_nil] at h3
    rw [handleOf_eq_some] at h3
    exact h3
  obtain ⟨m1, m2, m3, m4, m5, m6, m7⟩ := clearKeys_spec ks s3 0 hnd hh3
  have hlen3 : s3.loop.timers.length = ks.length := by
    show sarm.loop.timers.length = ks.length
    rw [a1, hloopw]
    simp
  have hfin : uninstall true ({ sarm with initialized := true } : ModuleState)
      = { clearKeys ks s3 with initialized := false } := by
    rw [h2, htd]
  rw [hs1, hfin]
  refine ⟨?_, ?_, ?_, ?_, rfl, ?_⟩
  · show liveCount (clearKeys ks s3).loop = 0
    unfold liveCount
    rw [List.countP_eq_zero]
    intro tm hm
    rw [List.mem_iff_get?] at hm
    obtain ⟨j, hj⟩ := hm
    simp only [decide_eq_true_eq]
    intro hcc
    have hjlt : j < (clearKeys ks s3).loop.timers.length := by
      by_contra hge
      rw [List.get?_eq_none.mpr (Nat.le_of_not_lt hge)] at hj
      exact Option.noConfusion hj
    obtain ⟨hrange, _, _, _⟩ := m1 j tm hj hcc
    rw [m4, hlen3] at hjlt
    rcases hrange with h4 | h4
    · omega
    · omega
  · show (clearKeys ks s3).sub_client.patterns = []
    rw [m5]
  · show (clearKeys ks s3).sub_tasks = []
    rw [m6]
  · intro k
    by_cases hk : k ∈ ks
    · exact m2 k hk
    · have hnone : alookup s3.crontab_router k = none :=
        alookup_eq_none _ _ (by rw [hkeq]; exact hk)
      show handleOf (clearKeys ks s3) k = none
      unfold handleOf
      rw [m3 k hk, hnone]
  · apply uninstall_err_eq _ "connection closed"
    have hc2 : ({ clearKeys ks s3 with initialized := false } : ModuleState).sub_client
        = ⟨[], true⟩ := by
      show (clearKeys ks s3).sub_client = ⟨[], true⟩
      rw [m5]
    rw [hc2]
    rfl

end TraderStrategy
